import Mathlib

/-!
Verification of the market-cap bracket classifier, change detector and
snapshot handling of `src/getBalances.js` (solana_dust_screener).

Modelling decisions:
* Market caps and prices are rationals (`ℚ`); every numeric literal the
  program compares against is an integer, and at such values JavaScript
  doubles are exact.
* JavaScript objects keyed by mint strings are association lists
  (`List (String × ℚ)`); iteration over an object's string keys in JS is
  insertion order, which the list preserves.  Lookups (`previousData[mint]`,
  `prices[mint]`) are `List.lookup`; `undefined` is `none`.
* The snapshot file `tmp_data_previous.json` is `Option Json`: `none` when
  `fs.existsSync` is false, `some j` when the file holds the JSON value `j`.
  Serialisation is modelled at the JSON-tree level (`JSON.stringify` builds
  the tree from the mapping, `JSON.parse` reads it back); the character-level
  encoding of doubles is outside the model.
* Network effects are passed in as data: a price fetch for a batch is an
  `Except Unit (List (String × ℚ))`, where `.error` is the axios failure
  caught inside `fetchTokenPrices`.
-/

namespace DustScreener

/-- `getMarketCapTranche` from src/getBalances.js lines 130-138:
ordered threshold comparisons, low to high, with early return. -/
def getMarketCapTranche (marketCap : ℚ) : String :=
  if marketCap < 100000 then "unbonded-bonded"
  else if marketCap < 500000 then "0-100k"
  else if marketCap < 1000000 then "100k-500k"
  else if marketCap < 3000000 then "500k-1M"
  else if marketCap < 10000000 then "1M-3M"
  else if marketCap < 20000000 then "3M-10M"
  else "10M-20M"

/-- A JSON value, as produced by `JSON.parse` / consumed by `JSON.stringify`. -/
inductive Json where
  | null : Json
  | bool (b : Bool) : Json
  | num (q : ℚ) : Json
  | str (s : String) : Json
  | arr (elems : List Json) : Json
  | obj (fields : List (String × Json)) : Json

/-- `JSON.stringify(currentMarketCaps, null, 2)` (line 169): the mapping
becomes a JSON object whose fields are the numeric market caps. -/
def stringifyMap (m : List (String × ℚ)) : Json :=
  Json.obj (m.map fun p => (p.1, Json.num p.2))

/-- Reading the fields of a parsed JSON object back as a token→market-cap
mapping; any non-numeric field value means the file did not hold such a
mapping. -/
def parseFields : List (String × Json) → Option (List (String × ℚ))
  | [] => some []
  | (k, Json.num q) :: rest => (parseFields rest).map fun r => (k, q) :: r
  | (_, _) :: _ => none

/-- Interpreting a parsed JSON value as the token→market-cap mapping. -/
def parseMap : Json → Option (List (String × ℚ))
  | Json.obj fields => parseFields fields
  | _ => none

/-- Lines 142-147 of `trackMarketCapChanges`: `previousData` starts as `{}`;
only if the snapshot file exists is it replaced by `JSON.parse` of the file.
`none` as a result models `JSON.parse` throwing on a malformed file. -/
def loadPreviousData (file : Option Json) : Option (List (String × ℚ)) :=
  match file with
  | none => some []
  | some j => parseMap j

/-- One Telegram notification, i.e. one `notifyTelegram(mint, tranche, cap)`
call (lines 156 and 163). -/
structure TransitionEvent where
  mint : String
  tranche : String
  marketCap : ℚ
deriving DecidableEq, Repr

/-- The comparison loop of `trackMarketCapChanges` (lines 150-166): for each
mint of `currentMarketCaps`, in order, a token absent from `previousData` is
notified as `unbonded-bonded`; a token whose tranche changed is notified with
its current tranche and cap; otherwise nothing is emitted. -/
def detectTransitions (currentMarketCaps previousData : List (String × ℚ)) :
    List TransitionEvent :=
  currentMarketCaps.filterMap fun p =>
    match List.lookup p.1 previousData with
    | none => some ⟨p.1, "unbonded-bonded", p.2⟩
    | some previousCap =>
      if getMarketCapTranche p.2 ≠ getMarketCapTranche previousCap then
        some ⟨p.1, getMarketCapTranche p.2, p.2⟩
      else
        none

/-- The whole of `trackMarketCapChanges` (lines 141-170): load the previous
snapshot, emit the notifications, and overwrite the file with the current
mapping.  `none` models the uncaught `JSON.parse` exception propagating out
before anything is notified or saved. -/
def trackMarketCapChanges (currentMarketCaps : List (String × ℚ))
    (file : Option Json) : Option (List TransitionEvent × Json) :=
  (loadPreviousData file).map fun previousData =>
    (detectTransitions currentMarketCaps previousData, stringifyMap currentMarketCaps)

/-- `fetchTokenPrices` (lines 93-101): on success the price mapping of the
response is returned, on any axios error the empty mapping `{}` is returned. -/
def fetchTokenPrices (response : Except Unit (List (String × ℚ))) :
    List (String × ℚ) :=
  match response with
  | Except.ok data => data
  | Except.error _ => []

/-- The loop of `chunkArray`: each iteration pushes `array.slice(i, i + size)`,
i.e. the first `size` elements of what remains, and advances by `size`.  The
recursion is driven by a fuel set to the array's length, an upper bound on the
number of loop iterations whenever `size ≥ 1` (each iteration consumes at
least one element); the source only ever calls this with `size = 99`. -/
def chunkArrayAux (size : ℕ) : ℕ → List α → List (List α)
  | _, [] => []
  | 0, _ :: _ => []
  | fuel + 1, a :: rest =>
    (a :: rest).take size :: chunkArrayAux size fuel ((a :: rest).drop size)

/-- `chunkArray` (lines 104-110): successive slices of `size` elements. -/
def chunkArray (array : List α) (size : ℕ) : List (List α) :=
  chunkArrayAux size array.length array

/-- The body of the batch loop (lines 58-67): each mint of the batch with a
price in `prices` contributes `price * 1e9` to `bondedCoins` /
`currentMarketCaps`; the others are pushed to `unbondedCoins`. -/
def processBatch (prices : List (String × ℚ)) (batch : List String) :
    List (String × ℚ) × List String :=
  (batch.filterMap fun mint =>
     (List.lookup mint prices).map fun price => (mint, price * 1000000000),
   batch.filter fun mint => (List.lookup mint prices).isNone)

/-- The batch loop of `getAllTokenBalances` (lines 53-68), accumulating the
bonded mapping and the unbonded list across batches in order. -/
def runBatches (fetch : List String → Except Unit (List (String × ℚ))) :
    List (List String) → List (String × ℚ) × List String
  | [] => ([], [])
  | b :: rest =>
    let prices := fetchTokenPrices (fetch b)
    let done := processBatch prices b
    let next := runBatches fetch rest
    (done.1 ++ next.1, done.2 ++ next.2)

/-- `currentMarketCaps` as built by one run over `mintAddresses` (lines
44-68): chunk into batches of 99, fetch each batch's prices, keep the priced
tokens. -/
def currentMarketCapsOf (fetch : List String → Except Unit (List (String × ℚ)))
    (mintAddresses : List String) : List (String × ℚ) :=
  (runBatches fetch (chunkArray mintAddresses 99)).1

/-- The unbonded (unpriced) mints of one run. -/
def unbondedOf (fetch : List String → Except Unit (List (String × ℚ)))
    (mintAddresses : List String) : List String :=
  (runBatches fetch (chunkArray mintAddresses 99)).2

/-- The state-relevant part of `getAllTokenBalances` (lines 24-91): given the
positive-balance mints and the snapshot-file state, return the notifications
sent and the resulting file state.  When there is no mint the whole pipeline
is skipped (line 85) and the file is untouched; when the previous file is
malformed the exception is caught by the outer `try` (line 88) after nothing
was notified and before the file was rewritten. -/
def getAllTokenBalances (fetch : List String → Except Unit (List (String × ℚ)))
    (mintAddresses : List String) (file : Option Json) :
    List TransitionEvent × Option Json :=
  if mintAddresses.length > 0 then
    match trackMarketCapChanges (currentMarketCapsOf fetch mintAddresses) file with
    | some (events, newFile) => (events, some newFile)
    | none => ([], file)
  else
    ([], file)

/-! ### Helper lemmas -/

/-- With `size = n + 1` and enough fuel, the chunks concatenate back to the
original list. -/
lemma chunkArrayAux_flatten (n : ℕ) :
    ∀ (fuel : ℕ) (l : List α), l.length ≤ fuel →
      (chunkArrayAux (n + 1) fuel l).flatten = l := by
  intro fuel
  induction fuel with
  | zero =>
    intro l h
    cases l with
    | nil => rfl
    | cons a rest => simp at h
  | succ fuel ih =>
    intro l h
    cases l with
    | nil => rfl
    | cons a rest =>
      have hlen : ((a :: rest).drop (n + 1)).length ≤ fuel := by
        simp only [List.length_drop, List.length_cons]
        have := Nat.succ_le_succ_iff.mp h
        omega
      simp only [chunkArrayAux, List.flatten_cons, ih _ hlen,
        List.take_append_drop]

/-- Chunking with a positive size partitions the list. -/
lemma chunkArray_flatten (l : List α) (n : ℕ) :
    (chunkArray l (n + 1)).flatten = l :=
  chunkArrayAux_flatten n l.length l (le_refl _)

/-- Two members of a duplicate-free concatenation that share an element are
the same sublist. -/
lemma eq_of_mem_of_nodup_flatten {L : List (List α)} (h : L.flatten.Nodup)
    {b b' : List α} (hb : b ∈ L) (hb' : b' ∈ L) {a : α}
    (ha : a ∈ b) (ha' : a ∈ b') : b = b' := by
  induction L with
  | nil => cases hb
  | cons c rest ih =>
    rw [List.flatten_cons, List.nodup_append] at h
    obtain ⟨-, hrest, hdisj⟩ := h
    rcases List.mem_cons.mp hb with rfl | hbt
    · rcases List.mem_cons.mp hb' with rfl | hbt'
      · rfl
      · exact (hdisj ha (List.mem_flatten.mpr ⟨b', hbt', ha'⟩)).elim
    · rcases List.mem_cons.mp hb' with rfl | hbt'
      · exact (hdisj ha' (List.mem_flatten.mpr ⟨b, hbt, ha⟩)).elim
      · exact ih hrest hbt hbt'

/-- In a mapping with duplicate-free keys, membership determines the lookup. -/
lemma lookup_of_mem_of_nodupKeys :
    ∀ {M : List (String × ℚ)}, (M.map Prod.fst).Nodup →
      ∀ {p : String × ℚ}, p ∈ M → M.lookup p.1 = some p.2 := by
  intro M
  induction M with
  | nil => intro _ p hp; cases hp
  | cons q rest ih =>
    intro h p hp
    obtain ⟨k, v⟩ := p
    obtain ⟨k', v'⟩ := q
    rw [List.map_cons, List.nodup_cons] at h
    rcases List.mem_cons.mp hp with heq | hmem
    · injection heq with h1 h2
      subst h1; subst h2
      simp
    · have hne : (k == k') = false := by
        refine beq_eq_false_iff_ne.mpr (fun hkk => h.1 ?_)
        rw [← hkk]
        exact List.mem_map.mpr ⟨(k, v), hmem, rfl⟩
      simp only [List.lookup_cons, hne]
      exact ih h.2 hmem

/-- A mint is a key of a batch's bonded output exactly when it is in the
batch and has a price. -/
lemma mem_keys_processBatch {prices : List (String × ℚ)} {batch : List String}
    {mint : String} :
    mint ∈ (processBatch prices batch).1.map Prod.fst ↔
      mint ∈ batch ∧ (List.lookup mint prices).isSome := by
  simp only [processBatch, List.map_filterMap, List.mem_filterMap]
  constructor
  · rintro ⟨m, hm, hf⟩
    rcases hlk : List.lookup m prices with _ | price
    · rw [hlk] at hf; cases hf
    · rw [hlk] at hf
      simp at hf
      subst hf
      exact ⟨hm, by rw [hlk]; rfl⟩
  · rintro ⟨hm, hs⟩
    rcases hlk : List.lookup mint prices with _ | price
    · rw [hlk] at hs; cases hs
    · exact ⟨mint, hm, by rw [hlk]; rfl⟩

/-- A mint is a key of the accumulated bonded mapping exactly when some batch
contains it and prices it. -/
lemma mem_keys_runBatches
    {fetch : List String → Except Unit (List (String × ℚ))}
    {bs : List (List String)} {mint : String} :
    mint ∈ (runBatches fetch bs).1.map Prod.fst ↔
      ∃ b ∈ bs, mint ∈ b ∧
        (List.lookup mint (fetchTokenPrices (fetch b))).isSome := by
  induction bs with
  | nil => simp [runBatches]
  | cons b rest ih =>
    simp only [runBatches, List.map_append, List.mem_append, ih,
      mem_keys_processBatch, List.mem_cons]
    constructor
    · rintro (⟨hm, hs⟩ | ⟨b', hb', hm, hs⟩)
      · exact ⟨b, Or.inl rfl, hm, hs⟩
      · exact ⟨b', Or.inr hb', hm, hs⟩
    · rintro ⟨b', rfl | hb', hm, hs⟩
      · exact Or.inl ⟨hm, hs⟩
      · exact Or.inr ⟨b', hb', hm, hs⟩

/-- Key characterisation of `currentMarketCaps` for a whole run. -/
lemma mem_keys_currentMarketCapsOf
    {fetch : List String → Except Unit (List (String × ℚ))}
    {mintAddresses : List String} {mint : String} :
    mint ∈ (currentMarketCapsOf fetch mintAddresses).map Prod.fst ↔
      ∃ b ∈ chunkArray mintAddresses 99, mint ∈ b ∧
        (List.lookup mint (fetchTokenPrices (fetch b))).isSome :=
  mem_keys_runBatches

/-- Serialising a mapping and reading its fields back is the identity. -/
lemma parseFields_stringify (M : List (String × ℚ)) :
    parseFields (M.map fun p => (p.1, Json.num p.2)) = some M := by
  induction M with
  | nil => rfl
  | cons p rest ih => simp [parseFields, ih]

/-! ### Claim theorems -/

/-- C1: the classifier is total and deterministic (it is a function), every
value at or above 20,000,000 falls into the catch-all `10M-20M` label, and the
boundary values classify as: 99999 ↦ `unbonded-bonded`, 100000 ↦ `0-100k`,
499999 ↦ `0-100k`, 500000 ↦ `100k-500k`, 20000000 ↦ `10M-20M`,
50000000 ↦ `10M-20M`. -/
theorem getMarketCapTranche_boundaries :
    (∀ marketCap : ℚ, 20000000 ≤ marketCap →
        getMarketCapTranche marketCap = "10M-20M") ∧
    getMarketCapTranche 99999 = "unbonded-bonded" ∧
    getMarketCapTranche 100000 = "0-100k" ∧
    getMarketCapTranche 499999 = "0-100k" ∧
    getMarketCapTranche 500000 = "100k-500k" ∧
    getMarketCapTranche 20000000 = "10M-20M" ∧
    getMarketCapTranche 50000000 = "10M-20M" := by
  refine ⟨?_, by decide, by decide, by decide, by decide, by decide, by decide⟩
  intro c hc
  unfold getMarketCapTranche
  rw [if_neg (by linarith), if_neg (by linarith), if_neg (by linarith),
    if_neg (by linarith), if_neg (by linarith), if_neg (by linarith)]

/-- Witness for C1: the catch-all clause evaluated at 123456789. -/
theorem getMarketCapTranche_boundaries_witness :
    (20000000 : ℚ) ≤ 123456789 ∧ getMarketCapTranche 123456789 = "10M-20M" :=
  ⟨by decide, getMarketCapTranche_boundaries.1 123456789 (by decide)⟩

/-- C2, counterexample: the claimed event for the crossing 400000 → 600000
carries bracket `500k-1M`, but the code emits `100k-500k` (600000 < 1000000,
so `getMarketCapTranche 600000 = "100k-500k"`). -/
theorem detect_crossing_cex :
    detectTransitions [("T", 600000)] [("T", 400000)] ≠
      [⟨"T", "500k-1M", 600000⟩] := by decide

/-- C2, amended: for current `{T: 600000}` and previous `{T: 400000}` the
detector emits exactly one event for T with new bracket `100k-500k` and cap
600000; for `{T: 450000}` versus `{T: 420000}` it emits nothing. -/
theorem detect_crossing_events :
    detectTransitions [("T", 600000)] [("T", 400000)] =
      [⟨"T", "100k-500k", 600000⟩] ∧
    detectTransitions [("T", 450000)] [("T", 420000)] = [] :=
  ⟨by decide, by decide⟩

/-- C3: every token with a market cap in `current` and absent from `previous`
yields an `unbonded-bonded` event carrying its current cap; in particular
`detect({T: 250000}, {})` is exactly that one event, even though the
classifier would put 250000 into `0-100k`. -/
theorem detect_newToken_unbonded :
    (∀ (current previous : List (String × ℚ)) (mint : String) (cap : ℚ),
        current.lookup mint = some cap → previous.lookup mint = none →
        TransitionEvent.mk mint "unbonded-bonded" cap ∈
          detectTransitions current previous) ∧
    detectTransitions [("T", 250000)] [] =
      [⟨"T", "unbonded-bonded", 250000⟩] ∧
    getMarketCapTranche 250000 = "0-100k" := by
  refine ⟨?_, by decide, by decide⟩
  intro current previous mint cap hcur hprev
  obtain ⟨l₁, l₂, rfl, -⟩ := List.lookup_eq_some_iff.mp hcur
  refine List.mem_filterMap.mpr ⟨(mint, cap), by simp, ?_⟩
  simp only [hprev]

/-- Witness for C3: the general clause applied to `{A: 250000}` versus the
empty previous mapping. -/
theorem detect_newToken_unbonded_witness :
    List.lookup "A" [("A", (250000 : ℚ))] = some 250000 ∧
    TransitionEvent.mk "A" "unbonded-bonded" 250000 ∈
      detectTransitions [("A", 250000)] [] :=
  ⟨by decide,
   detect_newToken_unbonded.1 [("A", 250000)] [] "A" 250000 (by decide) rfl⟩

/-- C4: detector idempotence — comparing a mapping against itself emits no
event. -/
theorem detect_self_eq_nil (M : List (String × ℚ))
    (h : (M.map Prod.fst).Nodup) : detectTransitions M M = [] := by
  rw [detectTransitions, List.filterMap_eq_nil_iff]
  intro p hp
  simp only [lookup_of_mem_of_nodupKeys h hp]
  simp

/-- Witness for C4: a two-token mapping compared against itself. -/
theorem detect_self_eq_nil_witness :
    (([("T", (5 : ℚ)), ("U", 6)].map Prod.fst).Nodup) ∧
    detectTransitions [("T", 5), ("U", 6)] [("T", 5), ("U", 6)] = [] :=
  ⟨by decide, detect_self_eq_nil _ (by decide)⟩

/-- C5: the detector iterates only over the current mapping — with an empty
current mapping nothing is emitted whatever the previous mapping held, and
every emitted event names a key of the current mapping. -/
theorem detect_ignores_dropped :
    (∀ previous : List (String × ℚ), detectTransitions [] previous = []) ∧
    (∀ (current previous : List (String × ℚ)) (e : TransitionEvent),
        e ∈ detectTransitions current previous →
        e.mint ∈ current.map Prod.fst) := by
  refine ⟨fun _ => rfl, ?_⟩
  intro current previous e he
  obtain ⟨p, hp, hf⟩ := List.mem_filterMap.mp he
  refine List.mem_map.mpr ⟨p, hp, ?_⟩
  rcases hlk : List.lookup p.1 previous with _ | c <;> simp only [hlk] at hf
  · rw [Option.some_inj] at hf
    subst hf
    rfl
  · split at hf
    · rw [Option.some_inj] at hf
      subst hf
      rfl
    · cases hf

/-- Witness for C5: `detect({}, {T: 10000}) = []`. -/
theorem detect_ignores_dropped_witness :
    detectTransitions [] [("T", 10000)] = [] :=
  detect_ignores_dropped.1 [("T", 10000)]

/-- C6, counterexample: a run that sees no positive-balance token skips the
whole pipeline (line 85), so the stale snapshot survives even though the
current run's priced mapping is empty — "after every run" fails. -/
theorem run_snapshot_overwrite_cex :
    (getAllTokenBalances (fun _ => Except.ok []) []
        (some (Json.obj [("T", Json.num 5)]))).2 =
      some (Json.obj [("T", Json.num 5)]) ∧
    currentMarketCapsOf (fun _ => Except.ok ([] : List (String × ℚ))) [] = [] ∧
    Json.obj [("T", Json.num 5)] ≠ stringifyMap [] := by
  refine ⟨rfl, rfl, ?_⟩
  intro hcontra
  simp [stringifyMap] at hcontra

/-- C6, amended: after every run that sees at least one positive-balance mint
and whose previous snapshot is readable, the persisted snapshot is exactly the
serialisation of the current run's priced mapping (full overwrite); a key of
that mapping is exactly a mint some batch priced, so a token of the previous
snapshot that no batch priced is absent from the new snapshot. -/
theorem run_snapshot_overwrite
    (fetch : List String → Except Unit (List (String × ℚ)))
    (mintAddresses : List String) (file : Option Json)
    (prev : List (String × ℚ))
    (hne : mintAddresses.length > 0)
    (hload : loadPreviousData file = some prev) :
    (getAllTokenBalances fetch mintAddresses file).2 =
      some (stringifyMap (currentMarketCapsOf fetch mintAddresses)) ∧
    (∀ mint, mint ∈ (currentMarketCapsOf fetch mintAddresses).map Prod.fst ↔
        ∃ b ∈ chunkArray mintAddresses 99, mint ∈ b ∧
          (List.lookup mint (fetchTokenPrices (fetch b))).isSome) ∧
    (∀ mint, mint ∈ prev.map Prod.fst →
        (∀ b ∈ chunkArray mintAddresses 99,
            ¬(mint ∈ b ∧ (List.lookup mint (fetchTokenPrices (fetch b))).isSome)) →
        mint ∉ (currentMarketCapsOf fetch mintAddresses).map Prod.fst) := by
  refine ⟨?_, fun mint => mem_keys_currentMarketCapsOf, ?_⟩
  · simp [getAllTokenBalances, hne, trackMarketCapChanges, hload]
  · intro mint hprev hnone hmem
    obtain ⟨b, hb, hmb, hs⟩ := mem_keys_currentMarketCapsOf.mp hmem
    exact hnone b hb ⟨hmb, hs⟩

/-- Witness for C6 (amended): one mint, one priced batch, first run. -/
theorem run_snapshot_overwrite_witness :
    ((["T"] : List String).length > 0) ∧
    (getAllTokenBalances (fun _ => Except.ok [("T", 2)]) ["T"] none).2 =
      some (stringifyMap
        (currentMarketCapsOf (fun _ => Except.ok [("T", 2)]) ["T"])) :=
  ⟨by decide,
   (run_snapshot_overwrite (fun _ => Except.ok [("T", 2)]) ["T"] none []
      (by decide) rfl).1⟩

/-- C7: snapshot round-trip — serialising any mapping and loading it back
reproduces the mapping exactly (the empty mapping included, by `M = []`). -/
theorem snapshot_roundTrip (M : List (String × ℚ)) :
    loadPreviousData (some (stringifyMap M)) = some M := by
  simp only [loadPreviousData, stringifyMap, parseMap]
  exact parseFields_stringify M

/-- Witness for C7: round-trip of a one-entry mapping. -/
theorem snapshot_roundTrip_witness :
    loadPreviousData (some (stringifyMap [("T", 250000)])) =
      some [("T", 250000)] :=
  snapshot_roundTrip [("T", 250000)]

/-- C8: with no snapshot file, loading yields the empty mapping rather than a
failure, and a first-ever run compares the current mapping against the empty
previous mapping (and still notifies and saves). -/
theorem load_firstRun_empty :
    loadPreviousData none = some [] ∧
    ∀ current : List (String × ℚ),
      trackMarketCapChanges current none =
        some (detectTransitions current [], stringifyMap current) :=
  ⟨rfl, fun _ => rfl⟩

/-- C9: a failed price fetch for a batch is recovered locally — the batch's
price mapping degrades to `{}`, every mint of the batch lands in the unbonded
(unpriced) list and none in the bonded mapping, the failed mint is not a key
of the run's priced mapping, and the run still reaches detection and persists
a snapshot excluding that mint. -/
theorem priceBatchFailure_degrades
    (fetch : List String → Except Unit (List (String × ℚ)))
    (mintAddresses : List String) (file : Option Json)
    (prev : List (String × ℚ)) (b : List String) (mint : String)
    (hnodup : mintAddresses.Nodup)
    (hb : b ∈ chunkArray mintAddresses 99)
    (hmint : mint ∈ b)
    (hfail : fetch b = Except.error ())
    (hload : loadPreviousData file = some prev) :
    fetchTokenPrices (fetch b) = [] ∧
    (processBatch (fetchTokenPrices (fetch b)) b).1 = [] ∧
    (processBatch (fetchTokenPrices (fetch b)) b).2 = b ∧
    mint ∉ (currentMarketCapsOf fetch mintAddresses).map Prod.fst ∧
    getAllTokenBalances fetch mintAddresses file =
      (detectTransitions (currentMarketCapsOf fetch mintAddresses) prev,
       some (stringifyMap (currentMarketCapsOf fetch mintAddresses))) := by
  have hempty : fetchTokenPrices (fetch b) = [] := by rw [hfail]; rfl
  have hflat : (chunkArray mintAddresses 99).flatten = mintAddresses :=
    chunkArray_flatten mintAddresses 98
  have hnodupFlat : (chunkArray mintAddresses 99).flatten.Nodup := by
    rw [hflat]; exact hnodup
  refine ⟨hempty, ?_, ?_, ?_, ?_⟩
  · rw [hempty]; simp [processBatch]
  · rw [hempty]; simp [processBatch]
  · intro hmem
    obtain ⟨b', hb', hmb', hs⟩ := mem_keys_currentMarketCapsOf.mp hmem
    have hbb : b' = b :=
      eq_of_mem_of_nodup_flatten hnodupFlat hb' hb hmb' hmint
    subst hbb
    rw [hempty] at hs
    simp at hs
  · have hpos : mintAddresses.length > 0 := by
      have hm : mint ∈ mintAddresses := by
        rw [← hflat]; exact List.mem_flatten.mpr ⟨b, hb, hmint⟩
      exact List.length_pos.mpr (List.ne_nil_of_mem hm)
    simp [getAllTokenBalances, hpos, trackMarketCapChanges, hload]

/-- Witness for C9: one mint, its only batch failing. -/
theorem priceBatchFailure_degrades_witness :
    (["T"] : List String).Nodup ∧
    "T" ∉ (currentMarketCapsOf (fun _ => Except.error ()) ["T"]).map
        Prod.fst :=
  ⟨by decide,
   (priceBatchFailure_degrades (fun _ => Except.error ()) ["T"] none [] ["T"]
      "T" (by decide) (by decide) (by decide) rfl rfl).2.2.2.1⟩

/-- C10: the classifier is total over all rational inputs; everything strictly
below 100,000 — negative values included — is pinned to the lowest label
`unbonded-bonded` by the first threshold test. -/
theorem getMarketCapTranche_total_below100k (marketCap : ℚ)
    (h : marketCap < 100000) :
    getMarketCapTranche marketCap = "unbonded-bonded" := by
  unfold getMarketCapTranche
  rw [if_pos h]

/-- Witness for C10: a negative market cap. -/
theorem getMarketCapTranche_total_below100k_witness :
    ((-5 : ℚ) < 100000) ∧ getMarketCapTranche (-5) = "unbonded-bonded" :=
  ⟨by decide, getMarketCapTranche_total_below100k (-5) (by decide)⟩

end DustScreener
